import Mathlib

set_option maxHeartbeats 1000000
set_option linter.unusedVariables false

/-
  Verification of the behavioral contracts of the LLM coding-assistant app
  (src/app.py): the code-block extractor `extract_code_blocks`, the
  line-oriented rendering partition in `display_message`, the snippet runner
  `run_code`, the completion client `call_llm_api`, and the outbound message
  truncation.  Text is modelled as `List Char`; the Python regex
  r'```(\w+)?\n(.*?)```' (re.DOTALL, re.findall) is given an executable
  operational model; the stateful/effectful parts (subprocess execution,
  HTTP responses, raised exceptions) are modelled by explicit event values
  fed to the embedded functions.
-/

namespace LLMModel

/-- The backtick character, U+0060. -/
def btick : Char := Char.ofNat 96

/-- The three-character fence marker. -/
def fence3 : List Char := [btick, btick, btick]

/-- Python regex word character \w (modelled over ASCII: alphanumeric or
underscore; the inputs of interest are ASCII). -/
def isWordChar (c : Char) : Bool := c.isAlphanum || c == '_'

/-- Python str whitespace as stripped by str.strip(). -/
def isPySpace (c : Char) : Bool :=
  c == ' ' || c == '\t' || c == '\n' || c == '\r' || c == Char.ofNat 11 || c == Char.ofNat 12

/-- Python str.strip(): drop leading and trailing whitespace. -/
def pyStrip (l : List Char) : List Char :=
  ((l.dropWhile isPySpace).reverse.dropWhile isPySpace).reverse

/-- Python str.split('\n'). -/
def splitLines : List Char → List (List Char)
  | [] => [[]]
  | c :: rest =>
    if c == '\n' then [] :: splitLines rest
    else
      match splitLines rest with
      | [] => [[c]]
      | l :: ls => (c :: l) :: ls

/-- '\n'.join, the inverse of `splitLines` on newline-free lines. -/
def joinLines : List (List Char) → List Char
  | [] => []
  | [l] => l
  | l :: l2 :: ls => l ++ '\n' :: joinLines (l2 :: ls)

/-- Three backticks in a row. -/
def nt3 (a b c : Char) : Bool := a == btick && b == btick && c == btick

/-- No three consecutive backticks occur in the list. -/
def noTriple : List Char → Bool
  | a :: b :: c :: rest => !(nt3 a b c) && noTriple (b :: c :: rest)
  | _ => true

/-- Match the literal ``` at the head of the input, returning the remainder. -/
def isFence3 : List Char → Option (List Char)
  | a :: b :: c :: rest => if nt3 a b c then some rest else none
  | _ => none

/-- Greedily take the maximal run of word characters (the regex \w+ with
backtracking collapses to this, since the following regex atom is \n). -/
def takeWordRun : List Char → List Char × List Char
  | [] => ([], [])
  | c :: rest =>
    if isWordChar c then
      let p := takeWordRun rest
      (c :: p.1, p.2)
    else ([], c :: rest)

/-- The non-greedy (.*?)``` of the pattern: find the earliest ``` and return
the characters before it and the remainder after it. -/
def findClose : List Char → Option (List Char × List Char)
  | [] => none
  | c :: rest =>
    match isFence3 (c :: rest) with
    | some after => some ([], after)
    | none =>
      match findClose rest with
      | some (body, after) => some (c :: body, after)
      | none => none

/-- Attempt the regex ```(\w+)?\n(.*?)``` at the current position.  On
success returns ((group1, group2), remainder-after-match).  Group 1 of a
non-participating (\w+)? is the empty list, matching Python re.findall
which reports '' for it. -/
def tryMatch (s : List Char) : Option ((List Char × List Char) × List Char) :=
  match isFence3 s with
  | none => none
  | some afterTicks =>
    let p := takeWordRun afterTicks
    match p.2 with
    | [] => none
    | c :: rest2 =>
      if c == '\n' then
        match findClose rest2 with
        | some (body, after) => some ((p.1, body), after)
        | none => none
      else none

/-- re.findall scanning loop: try a match at each position, left to right,
non-overlapping, resuming after each match.  Fuel-indexed so that it is
structurally recursive; `reFindAll` supplies adequate fuel. -/
def reScan : Nat → List Char → List (List Char × List Char)
  | 0, _ => []
  | _, [] => []
  | fuel + 1, c :: rest =>
    match tryMatch (c :: rest) with
    | some (grp, after) => grp :: reScan fuel after
    | none => reScan fuel rest

/-- re.findall(r'```(\w+)?\n(.*?)```', text, re.DOTALL). -/
def reFindAll (s : List Char) : List (List Char × List Char) := reScan s.length s

/-- A CodeBlock as produced by extract_code_blocks. -/
structure CodeBlock where
  language : List Char
  code : List Char
deriving DecidableEq

/-- extract_code_blocks (src/app.py lines 218-232): regex findall, language
defaulting to "text" for an empty group 1, code stripped. -/
def extract_code_blocks (text : List Char) : List CodeBlock :=
  (reFindAll text).map fun m =>
    { language := if m.1 = [] then "text".data else m.1, code := pyStrip m.2 }

/-- line.strip().startswith('```'), the fence test of the line-oriented
rendering pass in display_message (src/app.py line 307). -/
def isFenceLine (l : List Char) : Bool := (isFence3 (pyStrip l)).isSome

/-- The fenced partition induced by display_message's line loop
(src/app.py lines 302-316): an in-block flag toggled at each fence line;
this function returns, per completed toggle pair, the lines lying strictly
between the two fence lines (the code itself drops those lines from the
prose flushes; they form the fenced segments of the partition). -/
def lineBlocksAux : List (List Char) → Bool → List (List Char) → List (List (List Char))
  | [], _, _ => []
  | l :: ls, inB, acc =>
    if isFenceLine l then
      if inB then acc.reverse :: lineBlocksAux ls false []
      else lineBlocksAux ls true []
    else
      lineBlocksAux ls inB (if inB then l :: acc else acc)

/-- The fenced segments of the line-oriented partition of a text's lines. -/
def lineBlocks (ls : List (List Char)) : List (List (List Char)) := lineBlocksAux ls false []

/-- A fenced block of a structured document: opening-fence tag and body lines. -/
structure FBlock where
  tag : List Char
  body : List (List Char)
deriving DecidableEq

/-- A document segment: a prose line or a fenced block. -/
inductive Seg
  | prose (line : List Char)
  | block (b : FBlock)
deriving DecidableEq

/-- The lines a segment contributes to the document. -/
def segLines : Seg → List (List Char)
  | .prose l => [l]
  | .block b => (fence3 ++ b.tag) :: b.body ++ [fence3]

/-- All lines of a structured document. -/
def docLines (d : List Seg) : List (List Char) := (d.map segLines).flatten

/-- The character content of a block body as it appears between the fences:
each body line followed by its newline (matching regex group 2). -/
def bodyChars : List (List Char) → List Char
  | [] => []
  | l :: ls => l ++ '\n' :: bodyChars ls

/-- The rendered text of a structured document. -/
def docChars (d : List Seg) : List Char := joinLines (docLines d)

/-- The fenced blocks of a structured document, in source order. -/
def docBlocks (d : List Seg) : List FBlock :=
  d.filterMap fun s => match s with | .block b => some b | _ => none

/-- A well-formed prose or body line: contains no triple backtick and no
newline. -/
def lineOK (l : List Char) : Bool := noTriple l && l.all (fun c => !(c == '\n'))

/-- Well-formedness of a segment: prose/body lines are `lineOK`, tags are
word characters only. -/
def segOK : Seg → Bool
  | .prose l => lineOK l
  | .block b => b.tag.all isWordChar && b.body.all lineOK

/-- Well-formed document: every fence is opened and closed on its own line,
tags are word characters (possibly empty), and no stray ``` occurs. -/
def docOK (d : List Seg) : Bool := d.all segOK

/-- The SUPPORTED_LANGUAGES registry (src/app.py lines 79-99):
tag, extension, runner. -/
def SUPPORTED_LANGUAGES : List (String × String × String) :=
  [("python", ".py", "python"), ("javascript", ".js", "node"), ("java", ".java", "java"),
   ("cpp", ".cpp", "g++"), ("c", ".c", "gcc"), ("go", ".go", "go run"),
   ("rust", ".rs", "rustc"), ("php", ".php", "php"), ("ruby", ".rb", "ruby"),
   ("swift", ".swift", "swift"), ("kotlin", ".kt", "kotlinc"), ("typescript", ".ts", "ts-node"),
   ("bash", ".sh", "bash"), ("powershell", ".ps1", "powershell"), ("sql", ".sql", "sqlite3"),
   ("html", ".html", "browser"), ("css", ".css", "browser"), ("r", ".r", "Rscript"),
   ("matlab", ".m", "octave")]

/-- `language in SUPPORTED_LANGUAGES` membership test. -/
def langSupported (language : String) : Bool :=
  SUPPORTED_LANGUAGES.any fun p => p.1 == language

/-- What the subprocess execution attempt does: completes with a return
code and captured stdout/stderr, exceeds the 10-second deadline
(subprocess.TimeoutExpired), or raises some other exception. -/
inductive ExecEvent
  | done (returncode : Int) (stdout stderr : String)
  | timeoutExpired
  | raises (msg : String)
deriving DecidableEq

/-- Result of run_code plus the temp-file lifecycle instrumentation:
whether a NamedTemporaryFile(delete=False) was created during the call and
whether os.unlink was reached for it. -/
structure RunOutcome where
  ok : Bool
  output : String
  fileCreated : Bool
  fileDeleted : Bool
deriving DecidableEq

/-- run_code (src/app.py lines 234-276).  The registry check precedes any
file creation; once past it, the temporary file is written (delete=False).
os.unlink sits after subprocess.run and before the return-code test, so it
runs exactly when the subprocess completes (any exit code); the
TimeoutExpired and generic exception handlers return without unlinking, as
does the branch for registry languages that are not wired to execution. -/
def run_code (code : String) (language : String) (ev : ExecEvent) : RunOutcome :=
  if langSupported language then
    if language == "python" || language == "javascript" then
      match ev with
      | .done rc out err =>
        if rc == 0 then ⟨true, out, true, true⟩ else ⟨false, err, true, true⟩
      | .timeoutExpired => ⟨false, "Code execution timed out", true, false⟩
      | .raises m => ⟨false, "Execution error: " ++ m, true, false⟩
    else ⟨false, "Execution for " ++ language ++ " not implemented in this demo", true, false⟩
  else ⟨false, "Language " ++ language ++ " not supported for execution", false, false⟩

/-- A JSON value, for modelling parsed HTTP response bodies. -/
inductive Json
  | null
  | bool (b : Bool)
  | num (n : Int)
  | str (s : String)
  | arr (elems : List Json)
  | obj (fields : List (String × Json))

/-- Python exceptions that the JSON access operations can raise. -/
inductive PyErr
  | keyError (k : String)
  | typeError
  | attrError
  | indexError
deriving DecidableEq

/-- List-of-chars startswith. -/
def startsL : List Char → List Char → Bool
  | [], _ => true
  | _ :: _, [] => false
  | a :: as, b :: bs => a == b && startsL as bs

/-- Substring test (Python `needle in haystack` on str). -/
def hasSub (needle hay : List Char) : Bool :=
  startsL needle hay ||
    match hay with
    | [] => false
    | _ :: t => hasSub needle t

/-- Dictionary lookup on a JSON object's field list (first binding wins;
JSON objects have unique keys). -/
def findField (fields : List (String × Json)) (k : String) : Option Json :=
  (fields.find? fun p => p.1 == k).map fun p => p.2

/-- Python `k in j`: key membership for a dict, element membership for a
list (a str element equals k, any other element compares unequal),
substring test for a str; TypeError otherwise. -/
def jContains (j : Json) (k : String) : Except PyErr Bool :=
  match j with
  | .obj fields => .ok (findField fields k).isSome
  | .arr elems => .ok (elems.any fun x => match x with | .str s => s == k | _ => false)
  | .str s => .ok (hasSub k.data s.data)
  | _ => .error .typeError

/-- Python `j[k]` for a string key: dict lookup (KeyError when absent),
TypeError on non-dicts. -/
def jGetKey (j : Json) (k : String) : Except PyErr Json :=
  match j with
  | .obj fields =>
    match findField fields k with
    | some v => .ok v
    | none => .error (.keyError k)
  | _ => .error .typeError

/-- Python `j.get(k, dflt)`: defaulting lookup on dicts, AttributeError on
non-dicts. -/
def jGetMethod (j : Json) (k : String) (dflt : Json) : Except PyErr Json :=
  match j with
  | .obj fields =>
    .ok (match findField fields k with | some v => v | none => dflt)
  | _ => .error .attrError

/-- Python `len(j)`. -/
def jLen : Json → Except PyErr Nat
  | .arr elems => .ok elems.length
  | .str s => .ok s.length
  | .obj fields => .ok fields.length
  | _ => .error .typeError

/-- Python `j[0]`. -/
def jIndex0 : Json → Except PyErr Json
  | .arr [] => .error .indexError
  | .arr (x :: _) => .ok x
  | .str s =>
    match s.data with
    | [] => .error .indexError
    | c :: _ => .ok (.str (String.mk [c]))
  | .obj _ => .error (.keyError "0")
  | _ => .error .typeError

/-- The error-detail extraction of the non-200/401/429 branch
(src/app.py lines 185-191): error_detail = '' ; try: parse the body and,
when an 'error' field is present, take error['error'].get('message','');
on any exception there use the raw response text. -/
def errorDetail (body : Option Json) (text : String) : Json :=
  match body with
  | none => .str text
  | some j =>
    match jContains j "error" with
    | .error _ => .str text
    | .ok false => .str ""
    | .ok true =>
      match jGetKey j "error" with
      | .error _ => .str text
      | .ok e =>
        match jGetMethod e "message" (.str "") with
        | .error _ => .str text
        | .ok v => v

/-- The 200-path body handling (src/app.py lines 171-176):
if 'choices' in result and len(result['choices']) > 0 then
result['choices'][0]['message']['content'], else the malformed-response
branch (`none`).  Raised exceptions are explicit `.error` values. -/
def parse200 (j : Json) : Except PyErr (Option Json) :=
  match jContains j "choices" with
  | .error e => .error e
  | .ok false => .ok none
  | .ok true =>
    match jGetKey j "choices" with
    | .error e => .error e
    | .ok cs =>
      match jLen cs with
      | .error e => .error e
      | .ok n =>
        if n > 0 then
          match jIndex0 cs with
          | .error e => .error e
          | .ok c0 =>
            match jGetKey c0 "message" with
            | .error e => .error e
            | .ok m =>
              match jGetKey m "content" with
              | .error e => .error e
              | .ok content => .ok (some content)
        else .ok none

/-- What one requests.post attempt yields: an HTTP response (body = none
when response.json() would raise JSONDecodeError), a
requests.exceptions.Timeout, another requests.exceptions.RequestException,
or some other raised exception. -/
inductive AttemptEvent
  | resp (status : Nat) (body : Option Json) (text : String)
  | timeout
  | reqError (msg : String)
  | raiseOther (e : PyErr)

/-- The caller-visible outcome of call_llm_api.  The Python function
returns Optional[str]; the distinct st.error/st.warning messages on each
return path distinguish the failure kinds, which this type records. -/
inductive Outcome
  | success (content : Json)
  | malformed
  | invalidKey
  | apiError (status : Nat) (detail : Json)
  | timedOut
  | connectionFailed (msg : String)
  | noResponse
  | unexpected (e : PyErr)

/-- str(e) of a requests JSONDecodeError, as surfaced when a 200 body fails
to parse and the decode error is retried/reported through the
RequestException handler (modelling constant). -/
def jsonErrMsg : String := "JSONDecodeError"

/-- What one loop iteration does after receiving its event. -/
inductive StepRes
  | ret (o : Outcome)
  | retrySleep (s : Nat)
  | retryNoSleep
  | raised (e : PyErr)

/-- One iteration of the retry loop body (src/app.py lines 162-210), given
the attempt's event, the 0-indexed attempt number, and whether this is the
last allowed attempt (attempt = max_retries - 1).  Note: a JSONDecodeError
from response.json() on a 200 is a requests.exceptions.RequestException
subclass, so it takes the connection-error path. -/
def step (evt : AttemptEvent) (attempt : Nat) (last : Bool) : StepRes :=
  match evt with
  | .resp status body text =>
    if status = 200 then
      match body with
      | none => if last then .ret (.connectionFailed jsonErrMsg) else .retrySleep 1
      | some j =>
        match parse200 j with
        | .ok (some c) => .ret (.success c)
        | .ok none => .ret .malformed
        | .error e => .raised e
    else if status = 401 then .ret .invalidKey
    else if status = 429 then .retrySleep (2 ^ attempt)
    else .ret (.apiError status (errorDetail body text))
  | .timeout => if last then .ret .timedOut else .retryNoSleep
  | .reqError m => if last then .ret (.connectionFailed m) else .retrySleep 1
  | .raiseOther e => .raised e

/-- Result of running the retry loop: a normal return with its trace, or an
exception escaping the loop toward the outer handler.  `calls` counts
requests.post invocations (one per consumed attempt); `sleeps` logs each
time.sleep duration in order. -/
inductive LoopOut
  | trace (o : Outcome) (calls : Nat) (sleeps : List Nat)
  | raised (e : PyErr) (calls : Nat) (sleeps : List Nat)

/-- The retry loop `for attempt in range(max_retries)` with
max_retries = 3; falling off the loop returns None ("no response"). -/
def loopFrom (ev : Nat → AttemptEvent) : List Nat → Nat → List Nat → LoopOut
  | [], calls, sleeps => .trace .noResponse calls sleeps
  | i :: rest, calls, sleeps =>
    match step (ev i) i rest.isEmpty with
    | .ret o => .trace o (calls + 1) sleeps
    | .retryNoSleep => loopFrom ev rest (calls + 1) sleeps
    | .retrySleep s => loopFrom ev rest (calls + 1) (sleeps ++ [s])
    | .raised e => .raised e (calls + 1) sleeps

/-- The body of call_llm_api inside the outer try (attempts 0, 1, 2). -/
def callInner (ev : Nat → AttemptEvent) : LoopOut := loopFrom ev [0, 1, 2] 0 []

/-- The observable trace of one call_llm_api invocation. -/
structure CallTrace where
  outcome : Outcome
  calls : Nat
  sleeps : List Nat

/-- call_llm_api (src/app.py lines 143-216): the retry loop wrapped in the
outer `except Exception` handler, which converts any exception escaping
the loop into the "Unexpected error" return (None with an st.error). -/
def call_llm_api (ev : Nat → AttemptEvent) : CallTrace :=
  match callInner ev with
  | .trace o c s => ⟨o, c, s⟩
  | .raised e c s => ⟨.unexpected e, c, s⟩

/-- Number of calls recorded in a LoopOut. -/
def loopOutCalls : LoopOut → Nat
  | .trace _ c _ => c
  | .raised _ c _ => c

/-- Outcome discriminator: is it a success? -/
def isSuccessOutcome : Outcome → Bool
  | .success _ => true
  | _ => false

/-- A chat message held in the session history. -/
structure ChatMsg where
  role : String
  content : String
  timestamp : String
deriving DecidableEq

/-- get_system_prompt (src/app.py lines 114-141). -/
def get_system_prompt : String := "You are CodeMaster AI, an expert programming assistant specializing in:

1. **Code Generation**: Write clean, efficient, and well-documented code
2. **Multi-language Support**: Proficient in Python, JavaScript, Java, C++, C, Go, Rust, PHP, Ruby, Swift, Kotlin, TypeScript, and more
3. **Problem Solving**: Break down complex programming problems into manageable steps
4. **Code Review**: Analyze and improve existing code for performance and readability
5. **Debugging**: Identify and fix bugs with detailed explanations
6. **Best Practices**: Follow industry standards and coding conventions
7. **Documentation**: Provide clear explanations and inline comments

**Response Format Guidelines:**
- Always specify the programming language when providing code
- Use proper code formatting and syntax highlighting
- Include comments explaining complex logic
- Provide working examples when possible
- Suggest optimizations and alternatives when relevant
- Be concise but thorough in explanations

**Code Quality Standards:**
- Write production-ready code
- Follow language-specific conventions
- Include error handling where appropriate
- Optimize for readability and maintainability
- Test edge cases when relevant

Focus on delivering fast, accurate, and practical solutions."

/-- The outbound message list built before calling the API
(src/app.py lines 486-490): the system prompt followed by
{role, content} projections of st.session_state.messages[-10:].
List.drop (length - 10) is exactly Python's [-10:] (the whole list when
length <= 10, the last 10 otherwise). -/
def prepare_api_messages (history : List ChatMsg) : List (String × String) :=
  ("system", get_system_prompt) ::
    (history.drop (history.length - 10)).map fun m => (m.role, m.content)

/-- Concrete event stream: every attempt answers HTTP 401. -/
def ev401 : Nat → AttemptEvent := fun _ => .resp 401 none ""

/-- Concrete event stream: every attempt answers HTTP 429. -/
def allRateLimited : Nat → AttemptEvent := fun _ => .resp 429 none ""

/-- Field list of a well-formed 200 body with
choices[0].message.content = "hi". -/
def gbFields : List (String × Json) :=
  [("choices", .arr [.obj [("message", .obj [("content", .str "hi")])]])]

/-- A well-formed 200 body carrying choices[0].message.content = "hi". -/
def goodBody : Json := .obj gbFields

/-- Concrete event stream: a 200 with the well-formed body on every
attempt. -/
def evGood : Nat → AttemptEvent := fun _ => .resp 200 (some goodBody) ""

/-- Concrete event stream: a 200 whose object body has no 'choices' key. -/
def evNoChoices : Nat → AttemptEvent := fun _ =>
  .resp 200 (some (.obj [("x", .num 1)])) ""

/-- Concrete event stream: a 200 whose 'choices' maps to an empty array. -/
def evEmptyChoices : Nat → AttemptEvent := fun _ =>
  .resp 200 (some (.obj [("choices", .arr [])])) ""

/-- Concrete event stream: 429 on attempts 0 and 1, then 200 with a good
body on the final allowed attempt. -/
def rateThenOk : Nat → AttemptEvent := fun n =>
  if n < 2 then .resp 429 none "" else .resp 200 (some goodBody) ""

/-- Concrete event stream: a 200 whose body's 'choices' maps to a
non-indexable value, so the 200-path raises TypeError at len(). -/
def evBadChoices : Nat → AttemptEvent := fun _ =>
  .resp 200 (some (.obj [("choices", .num 5)])) ""

/-- Concrete event stream: a 200 with a non-empty choices array whose first
element lacks the 'message' field. -/
def evNoMessage : Nat → AttemptEvent := fun _ =>
  .resp 200 (some (.obj [("choices", .arr [.obj []])])) ""

/-- The C3 counterexample text: a fence tagged c++ (properly terminated),
which the line pass recognizes but the regex does not. -/
def cppFenceText : List Char := "```c++\nx\n```".data

/-- Concrete well-formed document for the C3 witness. -/
def docC3 : List Seg :=
  [.prose "Here:".data, .block ⟨"python".data, ["print(1)".data]⟩, .prose "done".data]

/-- Concrete well-formed document for the C8 witness: a tagged block, an
untagged block (language defaults to "text"), and surrounding prose. -/
def docC8 : List Seg :=
  [.prose "intro".data, .block ⟨"js".data, ["let x = 1".data, "f(x)".data]⟩,
   .prose "mid".data, .block ⟨[], ["plain".data]⟩]

/-- Concrete 11-message history for the C7 witness. -/
def history11 : List ChatMsg :=
  [⟨"user", "m1", "t1"⟩, ⟨"assistant", "m2", "t2"⟩, ⟨"user", "m3", "t3"⟩,
   ⟨"assistant", "m4", "t4"⟩, ⟨"user", "m5", "t5"⟩, ⟨"assistant", "m6", "t6"⟩,
   ⟨"user", "m7", "t7"⟩, ⟨"assistant", "m8", "t8"⟩, ⟨"user", "m9", "t9"⟩,
   ⟨"assistant", "m10", "t10"⟩, ⟨"user", "m11", "t11"⟩]

end LLMModel

namespace LLMModel

theorem isFence3_length {s r : List Char} (h : isFence3 s = some r) :
    s.length = r.length + 3 := by
  cases s with
  | nil => simp [isFence3] at h
  | cons a t =>
    cases t with
    | nil => simp [isFence3] at h
    | cons b t2 =>
      cases t2 with
      | nil => simp [isFence3] at h
      | cons c rest =>
        simp only [isFence3] at h
        split at h
        · cases h
          simp
        · cases h

theorem isFence3_fence (tag : List Char) : isFence3 (fence3 ++ tag) = some tag := by
  simp [fence3, isFence3, nt3]

theorem isFence3_none_of_noTriple {s : List Char} (h : noTriple s = true) :
    isFence3 s = none := by
  cases s with
  | nil => rfl
  | cons a t =>
    cases t with
    | nil => rfl
    | cons b t2 =>
      cases t2 with
      | nil => rfl
      | cons c rest =>
        simp only [noTriple, Bool.and_eq_true, Bool.not_eq_true'] at h
        simp [isFence3, h.1]

theorem takeWordRun_append (s : List Char) :
    (takeWordRun s).1 ++ (takeWordRun s).2 = s := by
  induction s with
  | nil => rfl
  | cons c rest ih =>
    simp only [takeWordRun]
    split
    · simpa using ih
    · rfl

theorem takeWordRun_all (s : List Char) :
    (takeWordRun s).1.all isWordChar = true := by
  induction s with
  | nil => rfl
  | cons c rest ih =>
    simp only [takeWordRun]
    split
    · next h => simpa [h] using ih
    · rfl

theorem takeWordRun_exact {tag : List Char} (htag : tag.all isWordChar = true)
    {c : Char} (hc : isWordChar c = false) (r : List Char) :
    takeWordRun (tag ++ c :: r) = (tag, c :: r) := by
  induction tag with
  | nil => simp [takeWordRun, hc]
  | cons a t ih =>
    simp only [List.all_cons, Bool.and_eq_true] at htag
    simp [takeWordRun, htag.1, ih htag.2]

theorem noTriple_head {c x y : Char} {r : List Char}
    (h : noTriple (c :: x :: y :: r) = true) : nt3 c x y = false := by
  simp only [noTriple, Bool.and_eq_true, Bool.not_eq_true'] at h
  exact h.1

theorem noTriple_tail {c : Char} {r : List Char} (h : noTriple (c :: r) = true) :
    noTriple r = true := by
  cases r with
  | nil => rfl
  | cons x t =>
    cases t with
    | nil => rfl
    | cons y t2 =>
      simp only [noTriple, Bool.and_eq_true] at h
      exact h.2

theorem isFence3_cons_of_nt3 {c x y : Char} {r : List Char} (h : nt3 c x y = false) :
    isFence3 (c :: x :: y :: r) = none := by
  simp [isFence3, h]

theorem findClose_length {s b a : List Char} (h : findClose s = some (b, a)) :
    s.length = b.length + 3 + a.length := by
  induction s generalizing b with
  | nil => simp [findClose] at h
  | cons c rest ih =>
    simp only [findClose] at h
    split at h
    · next after hf =>
      cases h
      have := isFence3_length hf
      simp only [List.length_nil]
      omega
    · split at h
      · next p hrec =>
        cases h
        have := ih hrec
        simp only [List.length_cons] at this ⊢
        omega
      · cases h

theorem findClose_exact : ∀ (body : List Char),
    noTriple (body ++ [btick, btick]) = true →
    ∀ (tail : List Char), findClose (body ++ fence3 ++ tail) = some (body, tail) := by
  intro body
  induction body with
  | nil =>
    intro _ tail
    simp [findClose, fence3, isFence3, nt3]
  | cons c b ih =>
    intro hb tail
    have hb2 : noTriple (b ++ [btick, btick]) = true :=
      noTriple_tail (by simpa using hb)
    have hfail : isFence3 (c :: (b ++ (fence3 ++ tail))) = none := by
      cases b with
      | nil =>
        have h1 : nt3 c btick btick = false := noTriple_head (by simpa using hb)
        simp only [List.nil_append, fence3, List.cons_append]
        exact isFence3_cons_of_nt3 h1
      | cons d b2 =>
        cases b2 with
        | nil =>
          have h1 : nt3 c d btick = false := noTriple_head (by simpa using hb)
          simp only [fence3, List.cons_append, List.nil_append, List.singleton_append]
          exact isFence3_cons_of_nt3 h1
        | cons e b3 =>
          have h1 : nt3 c d e = false := noTriple_head (by simpa using hb)
          simp only [List.cons_append]
          exact isFence3_cons_of_nt3 h1
    have hrec := ih hb2 tail
    show findClose ((c :: b) ++ fence3 ++ tail) = some (c :: b, tail)
    simp only [List.cons_append, List.append_assoc] at hrec ⊢
    simp only [findClose, hfail, hrec]

theorem tryMatch_length {s : List Char} {g : List Char × List Char} {after : List Char}
    (h : tryMatch s = some (g, after)) : after.length + 6 < s.length + 1 := by
  simp only [tryMatch] at h
  split at h
  · cases h
  · next afterTicks hf =>
    have hlen1 := isFence3_length hf
    have hsplit := congrArg List.length (takeWordRun_append afterTicks)
    split at h
    · cases h
    · next c rest2 hp =>
      split at h
      · split at h
        · next body aft hc =>
          cases h
          have hlen2 := findClose_length hc
          rw [hp] at hsplit
          simp only [List.length_append, List.length_cons] at hsplit
          omega
        · cases h
      · cases h

theorem tryMatch_tag {s : List Char} {g : List Char × List Char} {after : List Char}
    (h : tryMatch s = some (g, after)) : g.1.all isWordChar = true := by
  simp only [tryMatch] at h
  split at h
  · cases h
  · next afterTicks hf =>
    split at h
    · cases h
    · next c rest2 hp =>
      split at h
      · split at h
        · next body aft hc =>
          cases h
          exact takeWordRun_all afterTicks
        · cases h
      · cases h

theorem reScan_nil (fuel : Nat) : reScan fuel [] = [] := by
  cases fuel <;> rfl

theorem reScan_eq {fuel : Nat} : ∀ {s : List Char}, s.length ≤ fuel →
    reScan fuel s = reFindAll s := by
  induction fuel using Nat.strong_induction_on with
  | _ fuel ih =>
    intro s hs
    cases s with
    | nil => rw [reScan_nil]; rfl
    | cons c rest =>
      cases fuel with
      | zero => simp at hs
      | succ f =>
        show reScan (f + 1) (c :: rest) = reScan (c :: rest).length (c :: rest)
        simp only [List.length_cons, reScan]
        cases h : tryMatch (c :: rest) with
        | some p =>
          cases p with
          | mk g after =>
            have hlt := tryMatch_length h
            simp only [List.length_cons] at hs hlt
            have h1 : reScan f after = reFindAll after :=
              ih f (by omega) (by omega)
            have h2 : reScan rest.length after = reFindAll after :=
              ih rest.length (by omega) (by omega)
            simp [h1, h2]
        | none =>
          simp only [List.length_cons] at hs
          have h1 : reScan f rest = reFindAll rest := ih f (by omega) (by omega)
          have h2 : reScan rest.length rest = reFindAll rest :=
            ih rest.length (by omega) (le_refl _)
          simp [h1, h2]

theorem reFindAll_cons_some {s : List Char} {g : List Char × List Char}
    {after : List Char} (h : tryMatch s = some (g, after)) :
    reFindAll s = g :: reFindAll after := by
  cases s with
  | nil => simp [tryMatch, isFence3] at h
  | cons c rest =>
    show reScan (c :: rest).length (c :: rest) = _
    simp only [List.length_cons, reScan, h]
    have hlt := tryMatch_length h
    simp only [List.length_cons] at hlt
    rw [reScan_eq (by omega)]

theorem reFindAll_cons_none {c : Char} {rest : List Char}
    (h : tryMatch (c :: rest) = none) : reFindAll (c :: rest) = reFindAll rest := by
  show reScan (c :: rest).length (c :: rest) = _
  simp only [List.length_cons, reScan, h]
  rfl

theorem noTriple_cons {c : Char} {s : List Char} (hs : noTriple s = true)
    (h : ∀ x y r, s = x :: y :: r → nt3 c x y = false) : noTriple (c :: s) = true := by
  cases s with
  | nil => rfl
  | cons x t =>
    cases t with
    | nil => rfl
    | cons y r =>
      simp only [noTriple, Bool.and_eq_true, Bool.not_eq_true']
      exact ⟨h x y r rfl, hs⟩

theorem nt3_false_of_head {a b c : Char} (h : (a == btick) = false) : nt3 a b c = false := by
  simp [nt3, h]

theorem nt3_false_of_mid {a b c : Char} (h : (b == btick) = false) : nt3 a b c = false := by
  simp [nt3, h]

theorem nt3_false_of_last {a b c : Char} (h : (c == btick) = false) : nt3 a b c = false := by
  simp [nt3, h]

theorem noTriple_newline_append {l s : List Char} (hl : noTriple l = true)
    (hs : noTriple s = true) : noTriple (l ++ '\n' :: s) = true := by
  induction l with
  | nil =>
    simp only [List.nil_append]
    apply noTriple_cons hs
    intro x y r hxy
    exact nt3_false_of_head (by decide)
  | cons c l2 ih =>
    have h2 := ih (noTriple_tail hl)
    simp only [List.cons_append]
    apply noTriple_cons h2
    intro x y r hxy
    cases l2 with
    | nil =>
      simp only [List.nil_append] at hxy
      cases hxy
      exact nt3_false_of_mid (by decide)
    | cons d t =>
      cases t with
      | nil =>
        simp only [List.cons_append, List.nil_append] at hxy
        cases hxy
        exact nt3_false_of_last (by decide)
      | cons e t2 =>
        simp only [List.cons_append] at hxy
        cases hxy
        exact noTriple_head hl

theorem noTriple_append_right {a b : List Char} (h : noTriple (a ++ b) = true) :
    noTriple b = true := by
  induction a with
  | nil => simpa using h
  | cons c t ih => exact ih (noTriple_tail (by simpa using h))

theorem noTriple_append_left {a b : List Char} (h : noTriple (a ++ b) = true) :
    noTriple a = true := by
  induction a with
  | nil => rfl
  | cons c t ih =>
    apply noTriple_cons (ih (noTriple_tail (by simpa using h)))
    intro x y r hxy
    subst hxy
    exact noTriple_head (by simpa using h)

theorem dropWhile_suffix_decomp (p : Char → Bool) (l : List Char) :
    ∃ t, l = t ++ l.dropWhile p := by
  induction l with
  | nil => exact ⟨[], rfl⟩
  | cons c r ih =>
    by_cases hp : p c = true
    · obtain ⟨t, ht⟩ := ih
      refine ⟨c :: t, ?_⟩
      rw [List.dropWhile_cons, if_pos hp, List.cons_append, ← ht]
    · refine ⟨[], ?_⟩
      rw [List.dropWhile_cons, if_neg hp, List.nil_append]

theorem noTriple_pyStrip {l : List Char} (h : noTriple l = true) :
    noTriple (pyStrip l) = true := by
  unfold pyStrip
  obtain ⟨t1, ht1⟩ := dropWhile_suffix_decomp isPySpace l
  have h1 : noTriple (l.dropWhile isPySpace) = true := by
    rw [ht1] at h
    exact noTriple_append_right h
  obtain ⟨t2, ht2⟩ := dropWhile_suffix_decomp isPySpace (l.dropWhile isPySpace).reverse
  have hs1 : l.dropWhile isPySpace
      = ((l.dropWhile isPySpace).reverse.dropWhile isPySpace).reverse ++ t2.reverse := by
    have := congrArg List.reverse ht2
    simpa [List.reverse_append] using this
  rw [hs1] at h1
  exact noTriple_append_left h1

theorem isFenceLine_false {l : List Char} (h : noTriple l = true) :
    isFenceLine l = false := by
  simp [isFenceLine, isFence3_none_of_noTriple (noTriple_pyStrip h)]

theorem tryMatch_cons_none {c : Char} {s : List Char} (h : isFence3 (c :: s) = none) :
    tryMatch (c :: s) = none := by
  simp [tryMatch, h]

theorem isFence3_newline2 (c : Char) (s : List Char) :
    isFence3 (c :: '\n' :: s) = none := by
  cases s with
  | nil => rfl
  | cons y t => exact isFence3_cons_of_nt3 (nt3_false_of_mid (by decide))

theorem reFindAll_newline (rest : List Char) :
    reFindAll ('\n' :: rest) = reFindAll rest := by
  apply reFindAll_cons_none
  apply tryMatch_cons_none
  cases rest with
  | nil => rfl
  | cons x t =>
    cases t with
    | nil => rfl
    | cons y t2 => exact isFence3_cons_of_nt3 (nt3_false_of_head (by decide))

theorem reFindAll_prose {l : List Char} (hl : noTriple l = true) (rest : List Char) :
    reFindAll (l ++ '\n' :: rest) = reFindAll rest := by
  induction l with
  | nil => simpa using reFindAll_newline rest
  | cons c l2 ih =>
    have step1 : tryMatch (c :: (l2 ++ '\n' :: rest)) = none := by
      apply tryMatch_cons_none
      cases l2 with
      | nil => simpa using isFence3_newline2 c rest
      | cons d t =>
        cases t with
        | nil => exact isFence3_cons_of_nt3 (nt3_false_of_last (by decide))
        | cons e t2 => exact isFence3_cons_of_nt3 (noTriple_head hl)
    rw [List.cons_append, reFindAll_cons_none step1]
    exact ih (noTriple_tail hl)

theorem reFindAll_noTriple {s : List Char} (h : noTriple s = true) :
    reFindAll s = [] := by
  induction s with
  | nil => rfl
  | cons c t ih =>
    rw [reFindAll_cons_none (tryMatch_cons_none (isFence3_none_of_noTriple h))]
    exact ih (noTriple_tail h)

theorem tryMatch_block {tag : List Char} (htag : tag.all isWordChar = true)
    {body : List Char} (hb : noTriple (body ++ [btick, btick]) = true)
    (tail : List Char) :
    tryMatch (fence3 ++ (tag ++ '\n' :: (body ++ (fence3 ++ tail))))
      = some ((tag, body), tail) := by
  have h1 := isFence3_fence (tag ++ '\n' :: (body ++ (fence3 ++ tail)))
  have h2 := findClose_exact body hb tail
  simp only [tryMatch, h1]
  rw [takeWordRun_exact htag (by decide)]
  simp only [List.append_assoc] at h2
  simp [h2]

theorem bodyChars_noTriple {body : List (List Char)}
    (h : ∀ l ∈ body, noTriple l = true) :
    noTriple (bodyChars body ++ [btick, btick]) = true := by
  induction body with
  | nil => rfl
  | cons l ls ih =>
    simp only [bodyChars, List.cons_append, List.append_assoc]
    exact noTriple_newline_append (h l (by simp))
      (ih fun x hx => h x (by simp [hx]))

theorem segLines_ne_nil (s : Seg) : segLines s ≠ [] := by
  cases s <;> simp [segLines]

theorem docLines_cons (s : Seg) (d : List Seg) :
    docLines (s :: d) = segLines s ++ docLines d := by
  simp [docLines]

theorem docLines_ne_nil {d : List Seg} (h : d ≠ []) : docLines d ≠ [] := by
  cases d with
  | nil => exact absurd rfl h
  | cons s t =>
    rw [docLines_cons]
    cases hs : segLines s with
    | nil => exact absurd hs (segLines_ne_nil s)
    | cons a b => simp

theorem joinLines_cons_ne {l : List Char} {rest : List (List Char)} (h : rest ≠ []) :
    joinLines (l :: rest) = l ++ '\n' :: joinLines rest := by
  cases rest with
  | nil => exact absurd rfl h
  | cons m u => rfl

theorem joinLines_append {ls1 ls2 : List (List Char)} (h1 : ls1 ≠ []) (h2 : ls2 ≠ []) :
    joinLines (ls1 ++ ls2) = joinLines ls1 ++ '\n' :: joinLines ls2 := by
  induction ls1 with
  | nil => exact absurd rfl h1
  | cons l t ih =>
    cases t with
    | nil =>
      cases ls2 with
      | nil => exact absurd rfl h2
      | cons m u => simp [joinLines]
    | cons l2 t2 =>
      have ih2 := ih (by simp)
      simp only [List.cons_append] at ih2 ⊢
      simp only [joinLines]
      rw [ih2]
      simp

theorem joinLines_body_close (body : List (List Char)) :
    joinLines (body ++ [fence3]) = bodyChars body ++ fence3 := by
  induction body with
  | nil => simp [joinLines, bodyChars]
  | cons l ls ih =>
    rw [List.cons_append, joinLines_cons_ne (by simp), ih]
    simp [bodyChars]

theorem joinLines_block (b : FBlock) :
    joinLines (segLines (.block b))
      = fence3 ++ (b.tag ++ '\n' :: (bodyChars b.body ++ fence3)) := by
  show joinLines ((fence3 ++ b.tag) :: (b.body ++ [fence3])) = _
  rw [joinLines_cons_ne (by simp), joinLines_body_close]
  simp

theorem docChars_cons_ne {s : Seg} {d : List Seg} (h : d ≠ []) :
    docChars (s :: d) = joinLines (segLines s) ++ '\n' :: docChars d := by
  unfold docChars
  rw [docLines_cons, joinLines_append (segLines_ne_nil s) (docLines_ne_nil h)]

theorem docChars_single (s : Seg) : docChars [s] = joinLines (segLines s) := by
  unfold docChars
  rw [docLines_cons]
  simp [docLines]

theorem docBlocks_cons_prose (l : List Char) (d : List Seg) :
    docBlocks (Seg.prose l :: d) = docBlocks d := by
  simp [docBlocks]

theorem docBlocks_cons_block (b : FBlock) (d : List Seg) :
    docBlocks (Seg.block b :: d) = b :: docBlocks d := by
  simp [docBlocks]

theorem docOK_cons {s : Seg} {d : List Seg} (h : docOK (s :: d) = true) :
    segOK s = true ∧ docOK d = true := by
  simpa [docOK, Bool.and_eq_true] using h

theorem lineOK_noTriple {l : List Char} (h : lineOK l = true) : noTriple l = true := by
  simp only [lineOK, Bool.and_eq_true] at h
  exact h.1

theorem lineOK_no_newline {l : List Char} (h : lineOK l = true) :
    ∀ c ∈ l, (c == '\n') = false := by
  simp only [lineOK, Bool.and_eq_true, List.all_eq_true] at h
  intro c hc
  simpa using h.2 c hc

theorem segOK_block {b : FBlock} (h : segOK (Seg.block b) = true) :
    b.tag.all isWordChar = true ∧ ∀ l ∈ b.body, lineOK l = true := by
  simp only [segOK, Bool.and_eq_true] at h
  exact ⟨h.1, by simpa [List.all_eq_true] using h.2⟩

theorem reFindAll_block {tag : List Char} (htag : tag.all isWordChar = true)
    {body : List Char} (hnt : noTriple (body ++ [btick, btick]) = true)
    (tail : List Char) :
    reFindAll (fence3 ++ (tag ++ '\n' :: (body ++ (fence3 ++ tail))))
      = (tag, body) :: reFindAll tail := by
  rw [reFindAll_cons_some (tryMatch_block htag hnt tail)]

theorem reFindAll_doc {d : List Seg} (h : docOK d = true) :
    reFindAll (docChars d)
      = (docBlocks d).map (fun b => (b.tag, bodyChars b.body)) := by
  induction d with
  | nil => rfl
  | cons s d ih =>
    obtain ⟨hs, hd⟩ := docOK_cons h
    cases s with
    | prose l =>
      have hl : noTriple l = true := lineOK_noTriple hs
      rw [docBlocks_cons_prose]
      cases d with
      | nil =>
        rw [docChars_single]
        show reFindAll (joinLines [l]) = _
        simpa [joinLines, docBlocks] using reFindAll_noTriple hl
      | cons s2 d2 =>
        rw [docChars_cons_ne (by simp)]
        show reFindAll (joinLines [l] ++ '\n' :: docChars (s2 :: d2)) = _
        rw [show joinLines [l] = l from rfl, reFindAll_prose hl]
        exact ih hd
    | block b =>
      obtain ⟨htag, hbody⟩ := segOK_block hs
      have hnt := bodyChars_noTriple fun x hx => lineOK_noTriple (hbody x hx)
      rw [docBlocks_cons_block]
      cases d with
      | nil =>
        rw [docChars_single, joinLines_block]
        have hshape : fence3 ++ (b.tag ++ '\n' :: (bodyChars b.body ++ fence3))
            = fence3 ++ (b.tag ++ '\n' :: (bodyChars b.body ++ (fence3 ++ []))) := by
          simp
        rw [hshape, reFindAll_block htag hnt]
        rfl
      | cons s2 d2 =>
        rw [docChars_cons_ne (by simp), joinLines_block]
        have hshape : (fence3 ++ (b.tag ++ '\n' :: (bodyChars b.body ++ fence3)))
              ++ '\n' :: docChars (s2 :: d2)
            = fence3 ++ (b.tag ++ '\n'
              :: (bodyChars b.body ++ (fence3 ++ ('\n' :: docChars (s2 :: d2))))) := by
          simp
        rw [hshape, reFindAll_block htag hnt, reFindAll_newline]
        rw [ih hd]
        rfl

theorem dropWhile_eq_self_of {p : Char → Bool} {l : List Char}
    (h : ∀ c ∈ l, p c = false) : l.dropWhile p = l := by
  cases l with
  | nil => rfl
  | cons c r => rw [List.dropWhile_cons, if_neg (by simp [h c (by simp)])]

theorem pyStrip_eq_self {l : List Char} (h : ∀ c ∈ l, isPySpace c = false) :
    pyStrip l = l := by
  unfold pyStrip
  rw [dropWhile_eq_self_of h, dropWhile_eq_self_of fun c hc => h c (by simpa using hc)]
  exact List.reverse_reverse l

theorem isWordChar_not_space {c : Char} (h : isWordChar c = true) :
    isPySpace c = false := by
  cases hc : isPySpace c
  · rfl
  · exfalso
    simp only [isPySpace, Bool.or_eq_true, beq_iff_eq] at hc
    rcases hc with ((((h1 | h1) | h1) | h1) | h1) | h1 <;> subst h1 <;>
      exact absurd h (by decide)

theorem isWordChar_ne_newline {c : Char} (h : isWordChar c = true) :
    (c == '\n') = false := by
  cases hc : c == '\n'
  · rfl
  · exfalso
    have hceq : c = '\n' := by simpa using hc
    subst hceq
    exact absurd h (by decide)

theorem isFenceLine_fence {tag : List Char} (htag : tag.all isWordChar = true) :
    isFenceLine (fence3 ++ tag) = true := by
  have hns : ∀ c ∈ fence3 ++ tag, isPySpace c = false := by
    intro c hc
    rcases List.mem_append.mp hc with h1 | h1
    · have hcb : c = btick := by simpa [fence3] using h1
      subst hcb
      decide
    · exact isWordChar_not_space (List.all_eq_true.mp htag c h1)
  simp [isFenceLine, pyStrip_eq_self hns, isFence3_fence]

theorem lineBlocksAux_body {ls : List (List Char)} {body : List (List Char)}
    (h : ∀ l ∈ body, noTriple l = true) :
    ∀ (acc : List (List Char)),
    lineBlocksAux (body ++ fence3 :: ls) true acc
      = (acc.reverse ++ body) :: lineBlocksAux ls false [] := by
  induction body with
  | nil =>
    intro acc
    have hf : isFenceLine fence3 = true := by
      have h0 : isFenceLine (fence3 ++ []) = true := isFenceLine_fence (by simp)
      simpa using h0
    simp [lineBlocksAux, hf]
  | cons l t ih =>
    intro acc
    have hnf : isFenceLine l = false := isFenceLine_false (h l (by simp))
    have ihx := ih (fun x hx => h x (by simp [hx])) (l :: acc)
    simp only [List.cons_append, lineBlocksAux, hnf]
    simp only [Bool.false_eq_true, if_false, if_true, List.append_eq]
    rw [ihx]
    simp

theorem lineBlocks_doc {d : List Seg} (h : docOK d = true) :
    lineBlocks (docLines d) = (docBlocks d).map (fun b => b.body) := by
  induction d with
  | nil => rfl
  | cons s d ih =>
    obtain ⟨hs, hd⟩ := docOK_cons h
    cases s with
    | prose l =>
      have hnf := isFenceLine_false (lineOK_noTriple hs)
      rw [docLines_cons, docBlocks_cons_prose]
      show lineBlocksAux ([l] ++ docLines d) false [] = _
      simp only [List.singleton_append, lineBlocksAux, hnf]
      simp only [Bool.false_eq_true, if_false]
      exact ih hd
    | block b =>
      obtain ⟨htag, hbody⟩ := segOK_block hs
      have hopen : isFenceLine (fence3 ++ b.tag) = true := isFenceLine_fence htag
      rw [docLines_cons, docBlocks_cons_block]
      have hlist : segLines (Seg.block b) ++ docLines d
          = (fence3 ++ b.tag) :: (b.body ++ fence3 :: docLines d) := by
        simp [segLines]
      show lineBlocksAux (segLines (Seg.block b) ++ docLines d) false [] = _
      rw [hlist]
      simp only [lineBlocksAux, hopen, if_true]
      simp only [Bool.false_eq_true, if_false]
      rw [lineBlocksAux_body (fun x hx => lineOK_noTriple (hbody x hx)) []]
      have := ih hd
      simp only [lineBlocks] at this
      simp [this]

theorem splitLines_no_newline {l : List Char} (h : ∀ c ∈ l, (c == '\n') = false) :
    splitLines l = [l] := by
  induction l with
  | nil => rfl
  | cons c r ih =>
    have hc := h c (by simp)
    have ihr := ih fun x hx => h x (by simp [hx])
    simp [splitLines, hc, ihr]

theorem splitLines_append {l : List Char} (h : ∀ c ∈ l, (c == '\n') = false)
    (rest : List Char) : splitLines (l ++ '\n' :: rest) = l :: splitLines rest := by
  induction l with
  | nil => simp [splitLines]
  | cons c t ih =>
    have hc := h c (by simp)
    have iht := ih fun x hx => h x (by simp [hx])
    simp [splitLines, hc, iht]

theorem splitJoin {ls : List (List Char)} (hne : ls ≠ [])
    (h : ∀ l ∈ ls, ∀ c ∈ l, (c == '\n') = false) :
    splitLines (joinLines ls) = ls := by
  induction ls with
  | nil => exact absurd rfl hne
  | cons l t ih =>
    cases t with
    | nil => exact splitLines_no_newline (h l (by simp))
    | cons l2 t2 =>
      rw [joinLines_cons_ne (by simp), splitLines_append (h l (by simp))]
      rw [ih (by simp) fun x hx => h x (by simp [hx])]

theorem docLines_no_newline {d : List Seg} (h : docOK d = true) :
    ∀ l ∈ docLines d, ∀ c ∈ l, (c == '\n') = false := by
  induction d with
  | nil => intro l hl; simp [docLines] at hl
  | cons s d ih =>
    obtain ⟨hs, hd⟩ := docOK_cons h
    intro l hl
    rw [docLines_cons] at hl
    rcases List.mem_append.mp hl with h1 | h1
    · cases s with
      | prose p =>
        have hlp : l = p := by simpa [segLines] using h1
        subst hlp
        exact lineOK_no_newline hs
      | block b =>
        obtain ⟨htag, hbody⟩ := segOK_block hs
        simp only [segLines, List.mem_cons, List.mem_append, List.mem_singleton] at h1
        rcases h1 with (h1 | h1) | (h1 | h1)
        · subst h1
          intro c hc
          rcases List.mem_append.mp hc with h2 | h2
          · have hcb : c = btick := by simpa [fence3] using h2
            subst hcb
            decide
          · exact isWordChar_ne_newline (List.all_eq_true.mp htag c h2)
        · exact lineOK_no_newline (hbody l h1)
        · subst h1
          intro c hc
          have hcb : c = btick := by simpa [fence3] using hc
          subst hcb
          decide
        · exact absurd h1 (List.not_mem_nil l)
    · exact ih hd l h1

theorem lineBlocks_split_doc {d : List Seg} (h : docOK d = true) :
    lineBlocks (splitLines (docChars d)) = (docBlocks d).map (fun b => b.body) := by
  cases d with
  | nil => rfl
  | cons s t =>
    show lineBlocks (splitLines (joinLines (docLines (s :: t)))) = _
    rw [splitJoin (docLines_ne_nil (by simp)) (docLines_no_newline h)]
    exact lineBlocks_doc h

theorem reScan_tags {fuel : Nat} : ∀ {s : List Char} {p : List Char × List Char},
    p ∈ reScan fuel s → p.1.all isWordChar = true := by
  induction fuel with
  | zero =>
    intro s p hp
    simp [reScan] at hp
  | succ f ih =>
    intro s p hp
    cases s with
    | nil => simp [reScan] at hp
    | cons c rest =>
      simp only [reScan] at hp
      cases hm : tryMatch (c :: rest) with
      | some q =>
        cases q with
        | mk g after =>
          rw [hm] at hp
          simp only [List.mem_cons] at hp
          rcases hp with hp | hp
          · subst hp
            exact tryMatch_tag hm
          · exact ih hp
      | none =>
        rw [hm] at hp
        exact ih hp

theorem loopFrom_calls_le (ev : Nat → AttemptEvent) :
    ∀ (ls : List Nat) (calls : Nat) (sleeps : List Nat),
    loopOutCalls (loopFrom ev ls calls sleeps) ≤ calls + ls.length := by
  intro ls
  induction ls with
  | nil =>
    intro calls sleeps
    simp [loopFrom, loopOutCalls]
  | cons i rest ih =>
    intro calls sleeps
    simp only [loopFrom]
    cases step (ev i) i rest.isEmpty with
    | ret o =>
      simp only [loopOutCalls, List.length_cons]
      omega
    | retryNoSleep =>
      have := ih (calls + 1) sleeps
      simp only [List.length_cons]
      omega
    | retrySleep s =>
      have := ih (calls + 1) (sleeps ++ [s])
      simp only [List.length_cons]
      omega
    | raised e =>
      simp only [loopOutCalls, List.length_cons]
      omega

theorem call_llm_api_calls (ev : Nat → AttemptEvent) :
    (call_llm_api ev).calls = loopOutCalls (callInner ev) := by
  unfold call_llm_api
  cases callInner ev <;> rfl

/-- C1: the claim states that whenever run creates a temporary file it is
deleted before returning on every exit path, including deadline exceeded.
The code violates this: os.unlink sits after subprocess.run and before the
return-code test, so the TimeoutExpired handler (and the generic exception
handler) return without deleting the file.  Evaluating the embedding at the
spec's own scenario run("while True: pass", "python") with the subprocess
exceeding the 10-second deadline shows the file was created and not
deleted. -/
theorem C1_timeout_leaves_tempfile :
    run_code "while True: pass" "python" ExecEvent.timeoutExpired
      = ⟨false, "Code execution timed out", true, false⟩ := rfl

/-- C2 counterexample: the claim says every language tag other than python
and javascript — including registry tags such as matlab — yields
failure("not supported") with no temporary file created.  At language
"matlab" the code instead passes the registry check, creates a temporary
file (never deleted), and returns the distinct "not implemented in this
demo" failure. -/
theorem C2_matlab_counterexample :
    run_code "disp(1)" "matlab" (ExecEvent.done 0 "" "")
      = ⟨false, "Execution for matlab not implemented in this demo", true, false⟩
    ∧ (run_code "disp(1)" "matlab" (ExecEvent.done 0 "" "")).fileCreated = true := ⟨rfl, rfl⟩

/-- C2 amended: a tag absent from the 19-entry registry yields
failure("Language ... not supported for execution") with no temporary file;
a registry tag other than python and javascript (such as matlab) yields
failure("Execution for ... not implemented in this demo") after creating a
temporary file, which is not deleted. -/
theorem C2_language_dispatch (code : String) (ev : ExecEvent) (lang : String) :
    (langSupported lang = false →
      run_code code lang ev
        = ⟨false, "Language " ++ lang ++ " not supported for execution", false, false⟩)
    ∧ (langSupported lang = true → lang ≠ "python" → lang ≠ "javascript" →
      run_code code lang ev
        = ⟨false, "Execution for " ++ lang ++ " not implemented in this demo", true, false⟩) := by
  constructor
  · intro h
    simp [run_code, h]
  · intro h hp hj
    have hp2 : (lang == "python") = false := by simpa using hp
    have hj2 : (lang == "javascript") = false := by simpa using hj
    simp [run_code, h, hp2, hj2]

/-- Witness for C2_language_dispatch at the unregistered tag "cobol" and
the registered-but-unwired tag "matlab". -/
theorem C2_language_dispatch_witness :
    run_code "x" "cobol" (ExecEvent.done 0 "" "")
      = ⟨false, "Language " ++ "cobol" ++ " not supported for execution", false, false⟩
    ∧ run_code "x" "matlab" (ExecEvent.done 0 "" "")
      = ⟨false, "Execution for " ++ "matlab" ++ " not implemented in this demo", true, false⟩ :=
  ⟨(C2_language_dispatch "x" (ExecEvent.done 0 "" "") "cobol").1 (by decide),
   (C2_language_dispatch "x" (ExecEvent.done 0 "" "") "matlab").2 (by decide)
     (by decide) (by decide)⟩

/-- C3 counterexample: the claim asserts agreement of the two passes on
every input whose opened fences are all terminated.  The text
"```c++\nx\n```" terminates its fence (two fence lines), yet the
line-oriented pass finds one fenced block while the regex-based
extract_code_blocks finds none: the regex requires the newline to follow a
(\w+)? tag, and "c++" contains non-word characters. -/
theorem C3_cpp_tag_counterexample :
    (lineBlocks (splitLines cppFenceText)).length = 1
    ∧ (extract_code_blocks cppFenceText).length = 0 := by decide

/-- C3 amended: over well-formed documents (docOK: fences open and close on
their own lines, opening-fence tags consist of word characters only, and no
stray triple backtick occurs in prose or block bodies), the line-oriented
partition and the regex extraction agree on the number of fenced blocks and
on their boundaries: the i-th regex match body is exactly the i-th
line-pass block's lines, each followed by its newline. -/
theorem C3_partition_agreement {d : List Seg} (h : docOK d = true) :
    (extract_code_blocks (docChars d)).length
        = (lineBlocks (splitLines (docChars d))).length
    ∧ (reFindAll (docChars d)).map (fun p => p.2)
        = (lineBlocks (splitLines (docChars d))).map bodyChars := by
  have h1 := reFindAll_doc h
  have h2 := lineBlocks_split_doc h
  constructor
  · rw [extract_code_blocks, List.length_map, h1, h2, List.length_map, List.length_map]
  · rw [h1, h2, List.map_map, List.map_map]
    rfl

/-- Witness for C3_partition_agreement at a concrete well-formed document. -/
theorem C3_partition_agreement_witness :
    (extract_code_blocks (docChars docC3)).length
        = (lineBlocks (splitLines (docChars docC3))).length
    ∧ (reFindAll (docChars docC3)).map (fun p => p.2)
        = (lineBlocks (splitLines (docChars docC3))).map bodyChars :=
  C3_partition_agreement (by decide)

/-- C4: whenever the first HTTP response has status 401, call_llm_api
returns the invalid-credential failure immediately, with exactly one
network call and no sleeps — a 401 never triggers a retry. -/
theorem C4_401_no_retry (ev : Nat → AttemptEvent) (body : Option Json) (text : String)
    (h : ev 0 = AttemptEvent.resp 401 body text) :
    call_llm_api ev = ⟨Outcome.invalidKey, 1, []⟩ := by
  simp [call_llm_api, callInner, loopFrom, h, step]

/-- Witness for C4_401_no_retry at the all-401 event stream. -/
theorem C4_401_no_retry_witness : call_llm_api ev401 = ⟨Outcome.invalidKey, 1, []⟩ :=
  C4_401_no_retry ev401 none "" rfl

/-- C5: the retry loop makes at most 3 network calls for every event
stream; three 429 responses sleep 2^0, 2^1, 2^2 time-units and fall
through to the no-result return; 429 on the first two attempts followed by
a good 200 on the final allowed attempt yields success with the returned
content. -/
theorem C5_retry_budget_and_backoff :
    (∀ ev : Nat → AttemptEvent, (call_llm_api ev).calls ≤ 3)
    ∧ call_llm_api allRateLimited = ⟨Outcome.noResponse, 3, [2 ^ 0, 2 ^ 1, 2 ^ 2]⟩
    ∧ call_llm_api rateThenOk = ⟨Outcome.success (Json.str "hi"), 3, [2 ^ 0, 2 ^ 1]⟩ := by
  refine ⟨?_, rfl, rfl⟩
  intro ev
  rw [call_llm_api_calls]
  have := loopFrom_calls_le ev [0, 1, 2] 0 []
  simpa [callInner] using this

/-- C6 counterexample: the claim says a 200 response with a non-empty
choices array yields success with choices[0].message.content, and
otherwise MalformedResponse.  With body {"choices": [{}]} — a non-empty
choices array whose first element lacks 'message' — the call instead ends
in the unexpected-error handler (KeyError), which is neither a success nor
the MalformedResponse branch. -/
theorem C6_missing_message_counterexample :
    call_llm_api evNoMessage = ⟨Outcome.unexpected (PyErr.keyError "message"), 1, []⟩
    ∧ isSuccessOutcome (call_llm_api evNoMessage).outcome = false
    ∧ (call_llm_api evNoMessage).outcome ≠ Outcome.malformed :=
  ⟨rfl, rfl, fun h => Outcome.noConfusion h⟩

/-- C6 amended: on HTTP 200 with a parsed JSON object body, the call
returns success with choices[0].message.content when the 'choices' key maps
to a non-empty array whose first element is an object carrying an object
'message' field with a 'content' field; it returns the MalformedResponse
failure when 'choices' is absent or maps to an empty array.  Both paths are
terminal on the first attempt (one call, no retry, no sleeps).  A present
but ill-shaped choices[0] instead surfaces through the unexpected-error
handler. -/
theorem C6_status200_handling (ev : Nat → AttemptEvent) (text : String)
    (fields : List (String × Json)) :
    (∀ (c0fields mfields : List (String × Json)) (rest : List Json) (content : Json),
      ev 0 = AttemptEvent.resp 200 (some (Json.obj fields)) text →
      findField fields "choices" = some (Json.arr (Json.obj c0fields :: rest)) →
      findField c0fields "message" = some (Json.obj mfields) →
      findField mfields "content" = some content →
      call_llm_api ev = ⟨Outcome.success content, 1, []⟩)
    ∧ (ev 0 = AttemptEvent.resp 200 (some (Json.obj fields)) text →
      findField fields "choices" = none →
      call_llm_api ev = ⟨Outcome.malformed, 1, []⟩)
    ∧ (ev 0 = AttemptEvent.resp 200 (some (Json.obj fields)) text →
      findField fields "choices" = some (Json.arr []) →
      call_llm_api ev = ⟨Outcome.malformed, 1, []⟩) := by
  refine ⟨?_, ?_, ?_⟩
  · intro c0fields mfields rest content hev hch hmsg hcont
    simp [call_llm_api, callInner, loopFrom, hev, step, parse200, jContains, jGetKey,
      jLen, jIndex0, hch, hmsg, hcont]
  · intro hev hch
    simp [call_llm_api, callInner, loopFrom, hev, step, parse200, jContains, jGetKey,
      jLen, jIndex0, hch]
  · intro hev hch
    simp [call_llm_api, callInner, loopFrom, hev, step, parse200, jContains, jGetKey,
      jLen, jIndex0, hch]

/-- Witness for C6_status200_handling: the three paths at concrete 200
bodies. -/
theorem C6_status200_handling_witness :
    call_llm_api evGood = ⟨Outcome.success (Json.str "hi"), 1, []⟩
    ∧ call_llm_api evNoChoices = ⟨Outcome.malformed, 1, []⟩
    ∧ call_llm_api evEmptyChoices = ⟨Outcome.malformed, 1, []⟩ :=
  ⟨(C6_status200_handling evGood "" gbFields).1
      [("message", Json.obj [("content", Json.str "hi")])]
      [("content", Json.str "hi")] [] (Json.str "hi") rfl rfl rfl rfl,
   (C6_status200_handling evNoChoices "" [("x", Json.num 1)]).2.1 rfl rfl,
   (C6_status200_handling evEmptyChoices "" [("choices", Json.arr [])]).2.2 rfl rfl⟩

/-- C7: whenever the session history exceeds 10 messages, the outbound
request's message list is the prepended system prompt followed by exactly
the role/content projections of the last 10 history entries; the drop
preserves the original order (entry i of the tail is entry
length - 10 + i of the history). -/
theorem C7_truncation (history : List ChatMsg) (h : 10 < history.length) :
    prepare_api_messages history
        = ("system", get_system_prompt)
          :: (history.drop (history.length - 10)).map (fun m => (m.role, m.content))
    ∧ (history.drop (history.length - 10)).length = 10
    ∧ ∀ i : Nat, (history.drop (history.length - 10))[i]?
        = history[history.length - 10 + i]? := by
  refine ⟨rfl, ?_, ?_⟩
  · rw [List.length_drop]
    omega
  · intro i
    rw [List.getElem?_drop]

/-- Witness for C7_truncation at a concrete 11-message history. -/
theorem C7_truncation_witness :
    prepare_api_messages history11
        = ("system", get_system_prompt)
          :: (history11.drop (history11.length - 10)).map (fun m => (m.role, m.content))
    ∧ (history11.drop (history11.length - 10)).length = 10
    ∧ ∀ i : Nat, (history11.drop (history11.length - 10))[i]?
        = history11[history11.length - 10 + i]? :=
  C7_truncation history11 (by decide)

/-- C8: over well-formed fenced documents (docOK), extract_code_blocks
returns exactly one block per fence pair, in source order; each block's
language is the opening-fence tag, defaulting to the literal "text" when
the tag is empty; each block's code is the fenced body with leading and
trailing whitespace stripped; a document with no fenced blocks yields the
empty (non-error) list. -/
theorem C8_extract_blocks {d : List Seg} (h : docOK d = true) :
    extract_code_blocks (docChars d)
      = (docBlocks d).map (fun b =>
          ⟨if b.tag = [] then "text".data else b.tag, pyStrip (bodyChars b.body)⟩) := by
  rw [extract_code_blocks, reFindAll_doc h, List.map_map]
  rfl

/-- Witness for C8_extract_blocks at a concrete document with a tagged
block, an untagged block and prose. -/
theorem C8_extract_blocks_witness :
    extract_code_blocks (docChars docC8)
      = (docBlocks docC8).map (fun b =>
          ⟨if b.tag = [] then "text".data else b.tag, pyStrip (bodyChars b.body)⟩) :=
  C8_extract_blocks (by decide)

/-- C9: call_llm_api is total as an error-handling function.  In the
embedding every Python exception is an explicit value: the loop body either
returns a trace or lets an exception escape (LoopOut.raised), and the outer
except-Exception handler converts every escaped exception into the
unexpected-error return while normal traces pass through unchanged.  Hence
for every event stream — including 200 bodies whose choices[0] lacks
'message'/'content', unparseable JSON on an error status, and exceptions
raised while building or sending the request — the function returns a
value and never propagates an exception to the caller. -/
theorem C9_no_exception_escapes (ev : Nat → AttemptEvent) :
    (∀ (e : PyErr) (c : Nat) (s : List Nat), callInner ev = LoopOut.raised e c s →
      call_llm_api ev = ⟨Outcome.unexpected e, c, s⟩)
    ∧ (∀ (o : Outcome) (c : Nat) (s : List Nat), callInner ev = LoopOut.trace o c s →
      call_llm_api ev = ⟨o, c, s⟩) := by
  constructor
  · intro e c s h
    simp [call_llm_api, h]
  · intro o c s h
    simp [call_llm_api, h]

/-- Witness for C9_no_exception_escapes: a 200 body whose 'choices' value
is a number makes the loop body raise TypeError at len(); the call returns
the unexpected-error value instead of propagating. -/
theorem C9_no_exception_escapes_witness :
    call_llm_api evBadChoices = ⟨Outcome.unexpected PyErr.typeError, 1, []⟩ :=
  (C9_no_exception_escapes evBadChoices).1 PyErr.typeError 1 [] rfl

/-- C10: every block returned by extract_code_blocks has a non-empty
language tag consisting only of word characters; the "text" default itself
is such a tag, and a fence tag containing a non-word character (such as
c++) can never be captured by the regex group, since group 1 is (\w+)?. -/
theorem C10_language_tag_invariant (t : List Char) (b : CodeBlock)
    (hb : b ∈ extract_code_blocks t) :
    b.language ≠ [] ∧ b.language.all isWordChar = true := by
  simp only [extract_code_blocks, List.mem_map] at hb
  obtain ⟨p, hp, hpb⟩ := hb
  have htag : p.1.all isWordChar = true := reScan_tags hp
  subst hpb
  show (if p.1 = [] then "text".data else p.1) ≠ []
    ∧ (if p.1 = [] then "text".data else p.1).all isWordChar = true
  by_cases h0 : p.1 = []
  · rw [h0]
    exact ⟨by decide, by decide⟩
  · simp only [if_neg h0]
    exact ⟨h0, htag⟩

/-- Witness for C10_language_tag_invariant at a concrete extraction. -/
theorem C10_language_tag_invariant_witness :
    (⟨"py".data, "x".data⟩ : CodeBlock).language ≠ []
    ∧ (⟨"py".data, "x".data⟩ : CodeBlock).language.all isWordChar = true :=
  C10_language_tag_invariant "```py\nx\n```".data ⟨"py".data, "x".data⟩ (by decide)

end LLMModel
